import Mathlib

/-!
Verification of the autoscan page-processing orchestration engine.

The definitions below are a shallow embedding of the Python source:
* `src/autoscan/autoscan.py` — the orchestrator `_process_images_async`
  (sequential and concurrent scheduling), the assembler
  `_join_markdown_pages`, and the top-level `autoscan` control flow;
* `src/autoscan/llm_processors/img_to_md_processor.py` — the
  construction of the per-page LLM request
  (`ImageToMarkdownProcessor.acompletion`), in particular whether a
  previous-page context block is attached.

External collaborators (PDF rasterization, the network LLM call, file
I/O) are modelled as oracle parameters, following the boundaries the
code itself draws: `pdf_to_images` becomes an `Option (List String)`
outcome, the per-page LLM call becomes a `Transcriber` function that
may fail, the polish call becomes an `Except` value, and the final
file write becomes a boolean outcome.  Cooperative scheduling of the
concurrent mode is modelled by an explicit completion order: a list of
task indices stating the order in which `asyncio` tasks deliver their
results into the `gather` result slots.

Python strings are modelled as Lean `String`; the handful of Python
string methods the code uses (`rstrip`, `strip`, `replace`,
`endswith`, `startswith`, truthiness) are re-implemented below over
the character list so that all definitions evaluate inside the kernel.
Python `float` costs are modelled as `ℚ`.
-/

/-! ## Python string primitives -/

/-- Bool test that `pat` is a prefix of `l` (Python `startswith` on the
character level). -/
def charsPrefix : List Char → List Char → Bool
  | [], _ => true
  | _ :: _, [] => false
  | p :: ps, c :: cs => if p = c then charsPrefix ps cs else false

/-- Bool test that `pat` is a suffix of `l` (Python `endswith` on the
character level). -/
def charsSuffix (pat l : List Char) : Bool :=
  charsPrefix pat.reverse l.reverse

/-- The artifact page-break sentinel removed by the assembler
(`"---PAGE BREAK---"` in `_join_markdown_pages`). -/
def pageBreakSentinel : List Char := "---PAGE BREAK---".data

/-- Left-to-right, non-overlapping removal of the page-break sentinel,
the semantics of Python `page.replace("---PAGE BREAK---", "")`.  The
`fuel` argument (instantiated with the length of the input) only makes
the recursion structural. -/
def removePB : Nat → List Char → List Char
  | 0, l => l
  | _ + 1, [] => []
  | fuel + 1, c :: rest =>
    if charsPrefix pageBreakSentinel (c :: rest) then
      removePB fuel (List.drop pageBreakSentinel.length (c :: rest))
    else
      c :: removePB fuel rest

/-- Python `page.replace("---PAGE BREAK---", "")`. -/
def pyReplacePageBreak (s : String) : String :=
  String.mk (removePB s.data.length s.data)

/-- Python `s.rstrip()`: drop trailing whitespace. -/
def pyRstrip (s : String) : String :=
  String.mk ((s.data.reverse.dropWhile Char.isWhitespace).reverse)

/-- Python `s.strip()`: drop leading and trailing whitespace. -/
def pyStrip (s : String) : String :=
  String.mk (((s.data.dropWhile Char.isWhitespace).reverse.dropWhile Char.isWhitespace).reverse)

/-- Python truthiness of a string: nonempty. -/
def pyTruthy (s : String) : Bool := !s.data.isEmpty

/-- Python truthiness of an optional string: not `None` and nonempty. -/
def pyTruthyOpt : Option String → Bool
  | none => false
  | some s => pyTruthy s

/-- Python `s.endswith(pat)`. -/
def pyEndsWith (s pat : String) : Bool := charsSuffix pat.data s.data

/-- Python `s.startswith(pat)`. -/
def pyStartsWith (s pat : String) : Bool := charsPrefix pat.data s.data

/-! ## Data model (src/autoscan/types.py) -/

/-- `ModelResult` from `src/autoscan/types.py`: one transcription
call's content plus its token usage and cost. -/
structure ModelResult where
  content : String
  prompt_tokens : Nat
  completion_tokens : Nat
  cost : ℚ
deriving DecidableEq

/-- The external per-page transcription capability
(`llm_processor.acompletion` as invoked by the orchestrator): image
path, optional previous-page markdown, page number; it either returns
a `ModelResult` or raises (modelled as `Except.error` with the
exception message). -/
def Transcriber : Type := String → Option String → Nat → Except String ModelResult

/-- The error raised by `process_single_image` in
`src/autoscan/autoscan.py`: an `LLMProcessingError` naming the
offending image and the original cause. -/
inductive ProcessError where
  | llmProcessing (image_path : String) (cause : String)
deriving DecidableEq

/-- One invocation of `llm_processor.acompletion` as made by the
orchestrator: which image, which page number, and which
`previous_page_markdown` argument the call received. -/
structure CallRecord where
  image_path : String
  page_number : Nat
  context : Option String
deriving DecidableEq

/-! ## The orchestrator (`_process_images_async`) -/

/-- `process_single_image` from `_process_images_async`: performs the
transcription call and wraps any exception into an
`LLMProcessingError` identifying the image. -/
def process_single_image (f : Transcriber) (image_path : String) (page_num : Nat)
    (previous_page_markdown : Option String) : Except ProcessError ModelResult :=
  match f image_path previous_page_markdown page_num with
  | Except.ok r => Except.ok r
  | Except.error e => Except.error (ProcessError.llmProcessing image_path e)

/-- The sequential (`sequential=True`) branch of
`_process_images_async`: pages are processed strictly in order, each
page receiving the previous page's `content` as
`previous_page_markdown`.  Returns the list of calls actually made
(in order) together with either the first error raised or the list of
per-page results.  (A `ModelResult` is a Python dataclass and hence
always truthy, so the source's `if result:` guard always holds.) -/
def seqProcess (f : Transcriber) : List String → Nat → Option String →
    List CallRecord × Except ProcessError (List ModelResult)
  | [], _, _ => ([], Except.ok [])
  | img :: rest, page_num, prev =>
    match process_single_image f img page_num prev with
    | Except.error e => ([⟨img, page_num, prev⟩], Except.error e)
    | Except.ok r =>
      let next := seqProcess f rest (page_num + 1) (some r.content)
      (⟨img, page_num, prev⟩ :: next.1, next.2.map (fun rs => r :: rs))

/-- The per-page tasks created by the concurrent branch of
`_process_images_async`: one `process_single_image` task per page, in
page order, each with `previous_page_markdown` left at its default
`None`. -/
def concTasks (f : Transcriber) : Nat → List String → List (Except ProcessError ModelResult)
  | _, [] => []
  | page_num, img :: rest =>
    process_single_image f img page_num none :: concTasks f (page_num + 1) rest

/-- The calls made by the concurrent branch (every task runs; the
semaphore only delays them). -/
def concCallRecords : Nat → List String → List CallRecord
  | _, [] => []
  | page_num, img :: rest => ⟨img, page_num, none⟩ :: concCallRecords (page_num + 1) rest

/-- `asyncio.gather(*tasks, return_exceptions=True)` under an explicit
completion order: each index `j` of `order` delivers task `j`'s
outcome into result slot `j`; slots of tasks that never complete stay
`none`.  For any completion order covering all indices the slots end
up holding every task's outcome at the task's own index. -/
def completeInOrder (tasks : List (Except ProcessError ModelResult)) (order : List Nat) :
    List (Option (Except ProcessError ModelResult)) :=
  order.foldl (fun slots j => slots.set j tasks[j]?) (List.replicate tasks.length none)

/-- The loop over `results` after `gather`: exceptions are logged and
skipped, every other (always-truthy) result is kept, in slot order. -/
def collectValid (slots : List (Option (Except ProcessError ModelResult))) : List ModelResult :=
  slots.filterMap (fun s =>
    match s with
    | some (Except.ok r) => some r
    | _ => none)

/-- The tail of `_process_images_async`: per-page contents in order,
and the summed token counts and cost of the kept results. -/
def aggregateResults (valid_results : List ModelResult) : List String × Nat × Nat × ℚ :=
  (valid_results.map (fun r => r.content),
   (valid_results.map (fun r => r.prompt_tokens)).sum,
   (valid_results.map (fun r => r.completion_tokens)).sum,
   (valid_results.map (fun r => r.cost)).sum)

/-- `_process_images_async` from `src/autoscan/autoscan.py`.  Returns
the list of transcription calls made together with the orchestrator's
outcome: in sequential mode a page failure propagates as an error; in
concurrent mode `gather(…, return_exceptions=True)` swallows failures
and the valid results are aggregated.  The `concurrency` bound only
schedules tasks (a semaphore); scheduling freedom is captured by the
`order` parameter, so the bound itself does not enter the result. -/
def _process_images_async (f : Transcriber) (pdf_page_images : List String)
    (concurrency : Option Nat) (sequential : Bool) (order : List Nat) :
    List CallRecord × Except ProcessError (List String × Nat × Nat × ℚ) :=
  if sequential then
    let run := seqProcess f pdf_page_images 1 none
    (run.1, run.2.map aggregateResults)
  else
    let tasks := concTasks f 1 pdf_page_images
    let results := completeInOrder tasks order
    (concCallRecords 1 pdf_page_images,
     Except.ok (aggregateResults (collectValid results)))

/-! ## The assembler (`_join_markdown_pages`) -/

/-- A page's cleanup in `_join_markdown_pages`:
`page.replace("---PAGE BREAK---", "").rstrip()`. -/
def cleanPage (page : String) : String :=
  pyRstrip (pyReplacePageBreak page)

/-- `valid_pages`: cleaned pages that are still truthy after a further
`rstrip`. -/
def validPagesOf (aggregated_markdown : List String) : List String :=
  (aggregated_markdown.map cleanPage).filter (fun p => pyTruthy (pyRstrip p))

/-- The separator loop of `_join_markdown_pages`: each page after the
first is appended behind a single newline when the previous cleaned
page ends with `|` and the current one starts with `|`, and behind a
blank line otherwise. -/
def joinRest : String → List String → String
  | _, [] => ""
  | prev, cur :: rest =>
    (if pyEndsWith prev "|" && pyStartsWith cur "|" then "\n" else "\n\n")
      ++ cur ++ joinRest cur rest

/-- Join of the already-cleaned nonempty pages. -/
def joinValid : List String → String
  | [] => ""
  | v0 :: rest => v0 ++ joinRest v0 rest

/-- `_join_markdown_pages` from `src/autoscan/autoscan.py`. -/
def _join_markdown_pages (aggregated_markdown : List String) : String :=
  if aggregated_markdown.isEmpty then ""
  else joinValid (validPagesOf aggregated_markdown)

/-- The separator rule as the spec words it: a single newline exactly
when the previous cleaned page ends with `|` and the next begins with
`|`, a blank line otherwise. -/
def specSeparator (prev next : String) : String :=
  if pyEndsWith prev "|" && pyStartsWith next "|" then "\n" else "\n\n"

/-- The spec's description of the assembler on the cleaned nonempty
pages: concatenation in order with `specSeparator` between each
adjacent pair. -/
def specJoinPages : List String → String
  | [] => ""
  | [p] => p
  | p :: q :: rest => p ++ specSeparator p q ++ specJoinPages (q :: rest)

/-! ## The per-page LLM request (img_to_md_processor.py) -/

/-- One entry of the `user_content` message list sent to the LLM. -/
inductive ContentPart where
  | text (s : String)
  | image_url (url : String)
deriving DecidableEq

/-- The `intro` string of `ImageToMarkdownProcessor.acompletion`. -/
def previousPageContextIntro : String :=
  "Here is the previous page markdown for continuity context. IMPORTANT: Do NOT repeat any content from the previous page. If tables CONTINUE across pages, ONLY provide data rows (NO headers, NO separators). Ensure seamless continuation without duplicating previous content."

/-- The previous-page context block appended to `user_content`. -/
def contextBlockFor (context_md : String) : ContentPart :=
  ContentPart.text (previousPageContextIntro ++ "\n<!-- PAGE SEPARATOR -->\n" ++ context_md)

/-- The `user_content` list built by
`ImageToMarkdownProcessor.acompletion`: the conversion instruction and
the page image always; the previous-page context block only when the
processor was configured with `pass_previous_page_context` and the
`previous_page_markdown` argument is truthy (not `None` and
nonempty); the ad-hoc user instructions only when truthy. -/
def buildUserContent (base64_image : String) (pass_previous_page_context : Bool)
    (previous_page_markdown : Option String) (user_prompt : String) : List ContentPart :=
  [ContentPart.text "Convert the following image to markdown.",
   ContentPart.image_url ("data:image/png;base64," ++ base64_image)]
  ++ (if pass_previous_page_context && pyTruthyOpt previous_page_markdown then
        [contextBlockFor (previous_page_markdown.getD "")]
      else [])
  ++ (if pyTruthy user_prompt then [ContentPart.text user_prompt] else [])

/-! ## The top-level run (`autoscan`) -/

/-- Observable page work performed during a run, in order. -/
inductive RunEvent where
  | pageRendered (page : Nat)
  | pageTranscribed (page : Nat)
  | polishCalled
  | fileWritten
deriving DecidableEq

/-- The distinct user-visible error kinds of `autoscan`
(src/autoscan/errors.py plus the inline `ValueError`). -/
inductive RunError where
  | pdfFileNotFound
  | pdfPageToImageConversion
  | invalidAccuracy
  | llmProcessing (e : ProcessError)
  | markdownFileWrite
deriving DecidableEq

/-- The fields of `AutoScanOutput` that the model tracks (timings and
file paths are plumbing). -/
structure RunOutput where
  markdown : String
  input_tokens : Nat
  output_tokens : Nat
  cost : ℚ
  accuracy : String
deriving DecidableEq

/-- The control flow of `autoscan` from `src/autoscan/autoscan.py`,
with external collaborators as oracles: `pdf_found` is the outcome of
`get_or_download_file`, `rendered` the outcome of `pdf_to_images`
(`none` models its internal exception handler returning `None`),
`polish` the outcome of the `MarkdownConsolidator` call, `write_ok`
the outcome of `write_text_to_file`.  Faithful to the source, the
accuracy value is validated only after the PDF has been rendered to
page images, and a failed polish call keeps the joined markdown and
the accumulated totals. -/
def autoscanModel (pdf_found : Bool) (rendered : Option (List String)) (accuracy : String)
    (f : Transcriber) (concurrency : Option Nat) (order : List Nat)
    (polish_output : Bool) (polish : Except String ModelResult) (write_ok : Bool) :
    List RunEvent × Except RunError RunOutput :=
  if !pdf_found then ([], Except.error RunError.pdfFileNotFound)
  else
    match rendered with
    | none => ([], Except.error RunError.pdfPageToImageConversion)
    | some images =>
      let renderEvents := (List.range images.length).map (fun i => RunEvent.pageRendered (i + 1))
      if images.isEmpty then (renderEvents, Except.error RunError.pdfPageToImageConversion)
      else if accuracy = "low" ∨ accuracy = "high" then
        let run := _process_images_async f images concurrency (accuracy == "high") order
        let events := renderEvents ++ run.1.map (fun r => RunEvent.pageTranscribed r.page_number)
        match run.2 with
        | Except.error e => (events, Except.error (RunError.llmProcessing e))
        | Except.ok (contents, pt, ct, cost) =>
          let markdown_content := _join_markdown_pages contents
          let step :=
            if polish_output && pyTruthy (pyStrip markdown_content) then
              match polish with
              | Except.ok post_result =>
                (events ++ [RunEvent.polishCalled], post_result.content,
                 pt + post_result.prompt_tokens, ct + post_result.completion_tokens,
                 cost + post_result.cost)
              | Except.error _ =>
                (events ++ [RunEvent.polishCalled], markdown_content, pt, ct, cost)
            else (events, markdown_content, pt, ct, cost)
          match step with
          | (evs, md, pt2, ct2, cost2) =>
            if write_ok then
              (evs ++ [RunEvent.fileWritten], Except.ok ⟨md, pt2, ct2, cost2, accuracy⟩)
            else (evs, Except.error RunError.markdownFileWrite)
      else (renderEvents, Except.error RunError.invalidAccuracy)

/-! ## Concrete instances used by counterexamples and witnesses -/

/-- A transcriber for which page 2 raises and pages 1 and 3 succeed. -/
def fC1 : Transcriber := fun _ _ n =>
  if n = 2 then Except.error "transcription failed"
  else if n = 1 then Except.ok ⟨"c1", 1, 1, 0⟩
  else Except.ok ⟨"c3", 1, 1, 0⟩

/-- A transcriber succeeding on every page with distinct contents. -/
def fC3 : Transcriber := fun _ _ n =>
  if n = 1 then Except.ok ⟨"A", 1, 2, 0⟩ else Except.ok ⟨"B", 3, 4, 0⟩

/-- A sequential transcriber succeeding on both pages. -/
def fC4 : Transcriber := fun _ _ n =>
  if n = 1 then Except.ok ⟨"A", 1, 2, 0⟩ else Except.ok ⟨"B", 3, 4, 0⟩

/-- A transcriber used to instantiate the C5 statement. -/
def fC5 : Transcriber := fun _ _ _ => Except.ok ⟨"X", 1, 1, 0⟩

/-- A transcriber whose first page returns empty content. -/
def fC6 : Transcriber := fun _ _ n =>
  Except.ok ⟨if n = 1 then "" else "B", 5, 3, 0⟩

/-- A sequential transcriber whose page 1 returns empty content. -/
def fC10 : Transcriber := fun _ _ n =>
  Except.ok ⟨if n = 1 then "" else "B", 1, 1, 0⟩

/-- A transcriber that is never invoked in the C2 scenario. -/
def fC2 : Transcriber := fun _ _ _ => Except.error "unused"

/-- A sequential transcriber for the C9 scenario. -/
def fC9 : Transcriber := fun _ _ n =>
  if n = 1 then Except.ok ⟨"A", 1, 1, 0⟩ else Except.ok ⟨"B", 1, 1, 0⟩

/-- The per-page results of the C9 scenario and their summed cost. -/
def c9rs : List ModelResult := [⟨"A", 1, 1, 0⟩, ⟨"B", 1, 1, 0⟩]

def c9cost : ℚ := (c9rs.map (fun r => r.cost)).sum

/-! ## Helper lemmas: strings and the assembler -/

lemma dropWhile_dropWhile_self (p : Char → Bool) (l : List Char) :
    List.dropWhile p (List.dropWhile p l) = List.dropWhile p l := by
  induction l with
  | nil => rfl
  | cons c rest ih =>
    by_cases h : p c
    · simp [List.dropWhile_cons, h, ih]
    · simp [List.dropWhile_cons, h]

lemma pyRstrip_idem (s : String) : pyRstrip (pyRstrip s) = pyRstrip s := by
  simp [pyRstrip, dropWhile_dropWhile_self]

lemma eq_empty_of_pyTruthy_eq_false {s : String} (h : pyTruthy s = false) : s = "" := by
  cases s with
  | mk data =>
    cases data with
    | nil => rfl
    | cons c rest => simp [pyTruthy] at h

lemma join_eq_joinValid (ps : List String) :
    _join_markdown_pages ps = joinValid (validPagesOf ps) := by
  cases ps with
  | nil => rfl
  | cons p rest => simp [_join_markdown_pages]

lemma joinValid_eq_specJoinPages (v0 : String) (rest : List String) :
    v0 ++ joinRest v0 rest = specJoinPages (v0 :: rest) := by
  induction rest generalizing v0 with
  | nil => simp [joinRest, specJoinPages]
  | cons cur rest ih =>
    simp only [joinRest, specJoinPages, specSeparator, ← ih cur]
    rw [← String.append_assoc, ← String.append_assoc, ← String.append_assoc]

lemma validPagesOf_append (a b : List String) :
    validPagesOf (a ++ b) = validPagesOf a ++ validPagesOf b := by
  simp [validPagesOf]

/-! ## Helper lemmas: the concurrent gather -/

lemma foldl_set_getElem? {α : Type} (g : Nat → Option α) (order : List Nat)
    (init : List (Option α)) (j : Nat) :
    (order.foldl (fun slots k => slots.set k (g k)) init)[j]?
      = if j ∈ order ∧ j < init.length then some (g j) else init[j]? := by
  induction order generalizing init with
  | nil => simp
  | cons hd tl ih =>
    rw [List.foldl_cons, ih, List.length_set, List.getElem?_set]
    by_cases hj : j = hd
    · subst hj
      by_cases hlen : j < init.length
      · by_cases hmem : j ∈ tl <;> simp [hmem, hlen, List.mem_cons]
      · have hnone : init[j]? = none := List.getElem?_eq_none (le_of_not_lt hlen)
        by_cases hmem : j ∈ tl <;> simp [hmem, hlen, hnone, List.mem_cons]
    · have hh : ¬ (hd = j) := fun h => hj h.symm
      by_cases hmem : j ∈ tl <;> by_cases hlen : j < init.length <;>
        simp [hmem, hlen, hh, hj, List.mem_cons]

lemma foldl_set_length {α : Type} (g : Nat → Option α) (order : List Nat)
    (init : List (Option α)) :
    (order.foldl (fun slots k => slots.set k (g k)) init).length = init.length := by
  induction order generalizing init with
  | nil => rfl
  | cons k rest ih => rw [List.foldl_cons, ih, List.length_set]

lemma completeInOrder_full (tasks : List (Except ProcessError ModelResult)) (order : List Nat)
    (hcover : ∀ j, j < tasks.length → j ∈ order) :
    completeInOrder tasks order = tasks.map some := by
  apply List.ext_getElem?
  intro j
  rw [completeInOrder, foldl_set_getElem?, List.length_replicate, List.getElem?_map]
  by_cases hj : j < tasks.length
  · simp [hj, hcover j hj, List.getElem?_eq_getElem hj]
  · simp [hj, List.getElem?_eq_none (le_of_not_lt hj), List.getElem?_replicate]

lemma collectValid_map_some (tasks : List (Except ProcessError ModelResult)) :
    collectValid (tasks.map some) = tasks.filterMap Except.toOption := by
  rw [collectValid, List.filterMap_map]
  congr 1
  funext t
  cases t <;> rfl

lemma toOption_ok_eq (r : ModelResult) :
    (Except.ok r : Except ProcessError ModelResult).toOption = some r := rfl

lemma filterMap_toOption_map_ok (rs : List ModelResult) :
    List.filterMap Except.toOption
      (rs.map (Except.ok : ModelResult → Except ProcessError ModelResult)) = rs := by
  induction rs with
  | nil => rfl
  | cons r rest ih => simp [List.filterMap_cons, toOption_ok_eq, ih]

lemma concTasks_length (f : Transcriber) (n : Nat) (images : List String) :
    (concTasks f n images).length = images.length := by
  induction images generalizing n with
  | nil => rfl
  | cons img rest ih => simp [concTasks, ih]

/-! ## Helper lemmas: the sequential chain -/

lemma seqProcess_ok_spec (f : Transcriber) :
    ∀ (images : List String) (n : Nat) (prev : Option String)
      (tr : List CallRecord) (rs : List ModelResult),
      seqProcess f images n prev = (tr, Except.ok rs) →
      rs.length = images.length ∧ tr.length = images.length ∧
      (∀ i, i < images.length →
        tr[i]?.map CallRecord.page_number = some (n + i) ∧
        tr[i]?.map CallRecord.context
          = some (if i = 0 then prev else (rs[i-1]?).map ModelResult.content)) := by
  intro images
  induction images with
  | nil =>
    intro n prev tr rs h
    rw [seqProcess] at h
    injection h with h1 h2
    injection h2 with h2
    subst h1; subst h2
    exact ⟨rfl, rfl, fun i hi => absurd hi (by simp)⟩
  | cons img rest ih =>
    intro n prev tr rs h
    rw [seqProcess] at h
    cases hp : process_single_image f img n prev with
    | error e =>
      rw [hp] at h
      injection h with h1 h2
      cases h2
    | ok r =>
      rw [hp] at h
      dsimp only at h
      cases hn : (seqProcess f rest (n + 1) (some r.content)).2 with
      | error e =>
        rw [hn] at h
        simp only [Except.map] at h
        injection h with h1 h2
        cases h2
      | ok rs2 =>
        rw [hn] at h
        simp only [Except.map] at h
        injection h with h1 h2
        injection h2 with h2
        have hrest : seqProcess f rest (n + 1) (some r.content)
            = ((seqProcess f rest (n + 1) (some r.content)).1, Except.ok rs2) := by
          rw [← hn]
        obtain ⟨hlen1, hlen2, hspec⟩ :=
          ih (n + 1) (some r.content) (seqProcess f rest (n + 1) (some r.content)).1 rs2 hrest
        subst h1
        subst h2
        refine ⟨by simp [hlen1], by simp [hlen2], ?_⟩
        intro i hi
        cases i with
        | zero => simp
        | succ j =>
          have hj : j < rest.length := by
            simpa using hi
          obtain ⟨hpage, hctx⟩ := hspec j hj
          constructor
          · simpa [Nat.add_assoc, Nat.add_comm 1 j] using hpage
          · cases j with
            | zero => simpa using hctx
            | succ k => simpa using hctx

lemma seqProcess_ok_of_all_ok (f : Transcriber)
    (hf : ∀ img prev n, (f img prev n).isOk = true) :
    ∀ (images : List String) (n : Nat) (prev : Option String),
      ∃ rs, (seqProcess f images n prev).2 = Except.ok rs ∧ rs.length = images.length := by
  intro images
  induction images with
  | nil =>
    intro n prev
    exact ⟨[], rfl, rfl⟩
  | cons img rest ih =>
    intro n prev
    have hok := hf img prev n
    cases hcall : f img prev n with
    | error e => rw [hcall] at hok; cases hok
    | ok r =>
      obtain ⟨rs, hrs, hlen⟩ := ih (n + 1) (some r.content)
      refine ⟨r :: rs, ?_, by simp [hlen]⟩
      rw [seqProcess]
      have hp : process_single_image f img n prev = Except.ok r := by
        rw [process_single_image, hcall]
      rw [hp]
      dsimp only
      rw [hrs]
      rfl

/-! ## Helper lemmas: the per-page request -/

lemma buildUserContent_none_ctx (b : String) (prev : Option String) (up : String) :
    buildUserContent b false prev up = buildUserContent b false none up := by
  simp [buildUserContent]

lemma buildUserContent_empty_ctx (b up : String) :
    buildUserContent b true (some "") up = buildUserContent b true none up := by
  have h : pyTruthy "" = false := by decide
  simp [buildUserContent, pyTruthyOpt, h]

lemma concCallRecords_context_none :
    ∀ (images : List String) (n : Nat) (rec : CallRecord),
      rec ∈ concCallRecords n images → rec.context = none := by
  intro images
  induction images with
  | nil => intro n rec h; cases h
  | cons img rest ih =>
    intro n rec h
    rw [concCallRecords] at h
    rcases List.mem_cons.mp h with h | h
    · subst h; rfl
    · exact ih (n + 1) rec h

/-! ## Claims about the assembler -/

/-- C7: For every pair of adjacent pages in the assembler's join, the
separator is a single newline exactly when the previous (cleaned) page
ends with `|` and the next (cleaned) page begins with `|`, and a blank
line (double newline) in every other case: the assembler coincides
with the spec's pairwise-separator description on the cleaned nonempty
pages, and in particular joins `["a|", "|b"]` to `"a|\n|b"` and
`["a", "b"]` to `"a\n\nb"`. -/
theorem c7_join_separator_rule :
    (∀ ps : List String, _join_markdown_pages ps = specJoinPages (validPagesOf ps))
    ∧ _join_markdown_pages ["a|", "|b"] = "a|\n|b"
    ∧ _join_markdown_pages ["a", "b"] = "a\n\nb" := by
  refine ⟨?_, by decide, by decide⟩
  intro ps
  rw [join_eq_joinValid]
  cases hv : validPagesOf ps with
  | nil => rfl
  | cons v0 rest =>
    rw [joinValid]
    exact joinValid_eq_specJoinPages v0 rest

/-- C8: The assembler strips each page of the page-break sentinel and
trailing whitespace, drops pages that clean to empty (no separator is
contributed for them), returns `""` for zero pages, returns the single
cleaned page verbatim for one page, and joins `["", "  ", "content"]`
to exactly `"content"`. -/
theorem c8_join_cleanup :
    _join_markdown_pages [] = ""
    ∧ (∀ p, _join_markdown_pages [p] = cleanPage p)
    ∧ _join_markdown_pages ["", "  ", "content"] = "content"
    ∧ (∀ a b p, cleanPage p = "" →
        _join_markdown_pages (a ++ p :: b) = _join_markdown_pages (a ++ b)) := by
  refine ⟨rfl, ?_, by decide, ?_⟩
  · intro p
    rw [join_eq_joinValid]
    have hfix : pyRstrip (cleanPage p) = cleanPage p := by
      rw [cleanPage, pyRstrip_idem]
    rw [validPagesOf]
    simp only [List.map_cons, List.map_nil, List.filter_cons, List.filter_nil, hfix]
    cases ht : pyTruthy (cleanPage p) with
    | true => simp [joinValid, joinRest]
    | false =>
      simp only [Bool.false_eq_true, if_false, joinValid]
      exact (eq_empty_of_pyTruthy_eq_false ht).symm
  · intro a b p hp
    rw [join_eq_joinValid, join_eq_joinValid, validPagesOf_append, validPagesOf_append]
    have hq : pyTruthy (pyRstrip (cleanPage p)) = false := by
      rw [cleanPage, pyRstrip_idem, ← cleanPage, hp]
      decide
    have hdrop : validPagesOf (p :: b) = validPagesOf b := by
      rw [validPagesOf, validPagesOf]
      simp [List.filter_cons, hq]
    rw [hdrop]

/-! ## Claims about the concurrent mode -/

lemma concProcess_eq (f : Transcriber) (images : List String)
    (concurrency : Option Nat) (order : List Nat)
    (hcover : ∀ j, j < images.length → j ∈ order) :
    (_process_images_async f images concurrency false order).2
      = Except.ok (aggregateResults ((concTasks f 1 images).filterMap Except.toOption)) := by
  have h1 : (_process_images_async f images concurrency false order).2
      = Except.ok (aggregateResults
          (collectValid (completeInOrder (concTasks f 1 images) order))) := rfl
  rw [h1, completeInOrder_full _ _ (by rw [concTasks_length]; exact hcover),
    collectValid_map_some]

/-- C1 (amended): in concurrent (low-accuracy) mode a page failure is
not fatal.  `gather(…, return_exceptions=True)` swallows the raised
`LLMProcessingError`; the failed page is logged and skipped, and the
orchestrator returns — without raising — the successful pages'
contents and summed usage, in original page order. -/
theorem c1_concurrent_failure_skips_page (f : Transcriber) (images : List String)
    (concurrency : Option Nat) (order : List Nat)
    (hcover : ∀ j, j < images.length → j ∈ order) :
    (_process_images_async f images concurrency false order).2
      = Except.ok (aggregateResults ((concTasks f 1 images).filterMap Except.toOption)) :=
  concProcess_eq f images concurrency order hcover

/-- C1 counterexample: for 3 pages where page 2's transcription
raises, the concurrent orchestrator does not raise; it returns a
2-page content list `["c1", "c3"]` silently omitting page 2 —
contradicting the claim that such a run raises a page-transcription
failure rather than returning a 2-page document. -/
theorem c1_counterexample :
    ((_process_images_async fC1 ["p1", "p2", "p3"] (some 10) false [0, 1, 2]).2).map
      (fun t => t.1) = Except.ok ["c1", "c3"] := rfl

theorem c1_witness :
    (_process_images_async fC1 ["p1", "p2", "p3"] (some 10) false [2, 0, 1]).2
      = Except.ok (aggregateResults
          ((concTasks fC1 1 ["p1", "p2", "p3"]).filterMap Except.toOption)) :=
  c1_concurrent_failure_skips_page fC1 ["p1", "p2", "p3"] (some 10) [2, 0, 1] (by decide)

/-- C3: for every nonempty page list, every concurrency bound between
1 and N, and every completion order covering all tasks (in particular
every permutation of them), if every page's transcription succeeds
with page-ordered results `rs` then the orchestrator returns the
contents of `rs` in original page order — the i-th element is page
i's content — never in completion order. -/
theorem c3_concurrent_order_invariant (f : Transcriber) (images : List String)
    (rs : List ModelResult) (c : Nat) (order : List Nat)
    (hne : images ≠ [])
    (hc1 : 1 ≤ c) (hcN : c ≤ images.length)
    (hcover : ∀ j, j < images.length → j ∈ order)
    (hok : concTasks f 1 images = rs.map Except.ok) :
    (_process_images_async f images (some c) false order).2
      = Except.ok (aggregateResults rs) := by
  rw [concProcess_eq f images (some c) order hcover, hok, filterMap_toOption_map_ok]

theorem c3_witness :
    (_process_images_async fC3 ["p1", "p2"] (some 1) false [1, 0]).2
      = Except.ok (aggregateResults [⟨"A", 1, 2, 0⟩, ⟨"B", 3, 4, 0⟩]) :=
  c3_concurrent_order_invariant fC3 ["p1", "p2"] [⟨"A", 1, 2, 0⟩, ⟨"B", 3, 4, 0⟩] 1 [1, 0]
    (by decide) (by decide) (by decide) (by decide) rfl

/-! ## Claims about the sequential mode and the per-page request -/

/-- C4: in sequential (high-accuracy) mode, on a successful run the
call for page 1 receives no previous-page context and the call for
page i (i > 1) receives exactly the transcribed content returned for
page i−1; the calls occur in page order 1..N (page i+1's call is
issued only after page i's result exists, its context being computed
from that result). -/
theorem c4_sequential_context_chain (f : Transcriber) (images : List String)
    (concurrency : Option Nat) (order : List Nat) (contents : List String)
    (h : ((_process_images_async f images concurrency true order).2).map (fun t => t.1)
          = Except.ok contents) :
    contents.length = images.length
    ∧ (_process_images_async f images concurrency true order).1.length = images.length
    ∧ ∀ i, i < images.length →
        ((_process_images_async f images concurrency true order).1)[i]?.map
            CallRecord.page_number = some (i + 1)
        ∧ ((_process_images_async f images concurrency true order).1)[i]?.map
            CallRecord.context = some (if i = 0 then none else contents[i-1]?) := by
  have htr : (_process_images_async f images concurrency true order).1
      = (seqProcess f images 1 none).1 := rfl
  have hres : (_process_images_async f images concurrency true order).2
      = ((seqProcess f images 1 none).2).map aggregateResults := rfl
  rw [hres] at h
  cases hseq : (seqProcess f images 1 none).2 with
  | error e => rw [hseq] at h; cases h
  | ok rs =>
    rw [hseq] at h
    simp only [Except.map] at h
    injection h with h
    obtain ⟨hlen1, hlen2, hspec⟩ := seqProcess_ok_spec f images 1 none
      (seqProcess f images 1 none).1 rs (by rw [← hseq])
    have hcontents : contents = rs.map (fun r => r.content) := by
      rw [← h]; rfl
    refine ⟨by rw [hcontents, List.length_map, hlen1], by rw [htr]; exact hlen2, ?_⟩
    intro i hi
    obtain ⟨hpage, hctx⟩ := hspec i hi
    constructor
    · rw [htr, hpage, Nat.add_comm]
    · rw [htr, hctx]
      cases i with
      | zero => simp
      | succ j =>
        simp only [Nat.succ_ne_zero, if_false]
        rw [hcontents, List.getElem?_map]

theorem c4_witness :
    ((_process_images_async fC4 ["p1", "p2"] none true []).1)[1]?.map CallRecord.context
      = some (some "A") := by
  have h := (c4_sequential_context_chain fC4 ["p1", "p2"] none [] ["A", "B"] rfl).2.2 1
    (by decide)
  simpa using h.2

/-- C5: in concurrent (low-accuracy) mode no page's transcription call
ever receives non-null previous-page context: every call record has
`previous_page_markdown = None`, and with the processor configured as
in low mode (`pass_previous_page_context = False`) the built request
is identical to a context-free request whatever context argument is
supplied, so no inter-page information flows into any page's call. -/
theorem c5_concurrent_no_context (f : Transcriber) (images : List String)
    (concurrency : Option Nat) (order : List Nat) :
    (∀ rec ∈ (_process_images_async f images concurrency false order).1,
        rec.context = none)
    ∧ (∀ b prev up, buildUserContent b false prev up = buildUserContent b false none up) := by
  constructor
  · intro rec hrec
    exact concCallRecords_context_none images 1 rec hrec
  · intro b prev up
    exact buildUserContent_none_ctx b prev up

theorem c5_witness : CallRecord.context ⟨"p1", 1, none⟩ = none :=
  (c5_concurrent_no_context fC5 ["p1"] (some 1) [0]).1 ⟨"p1", 1, none⟩ (by decide)

/-- C6 (amended): a page's transcription returning empty content is
not an error: in sequential mode the run still succeeds with one
result per page (the empty result is kept, neither retried nor
skipped as an error), and in concurrent mode the run never raises at
all; emptiness of content plays no role in control flow (only a call
that itself raises does). -/
theorem c6_empty_content_not_fatal (f : Transcriber) (images : List String)
    (concurrency : Option Nat) (order : List Nat)
    (hf : ∀ img prev n, (f img prev n).isOk = true) :
    (∃ t, (_process_images_async f images concurrency true order).2 = Except.ok t
       ∧ t.1.length = images.length)
    ∧ ((_process_images_async f images concurrency false order).2).isOk = true := by
  constructor
  · obtain ⟨rs, hrs, hlen⟩ := seqProcess_ok_of_all_ok f hf images 1 none
    refine ⟨aggregateResults rs, ?_, ?_⟩
    · have hres : (_process_images_async f images concurrency true order).2
          = ((seqProcess f images 1 none).2).map aggregateResults := rfl
      rw [hres, hrs]
      rfl
    · simp [aggregateResults, hlen]
  · rfl

/-- C6 counterexample: with page 1's transcription returning empty
content, the sequential 2-page run does not raise: it returns ok with
both pages' contents `["", "B"]` — contradicting the claim that empty
content is fatal to the run. -/
theorem c6_counterexample :
    ((_process_images_async fC6 ["p1", "p2"] none true []).2).map (fun t => t.1)
      = Except.ok ["", "B"] := rfl

theorem c6_witness :
    (∃ t, (_process_images_async fC6 ["p1", "p2"] none true []).2 = Except.ok t
       ∧ t.1.length = (["p1", "p2"] : List String).length)
    ∧ ((_process_images_async fC6 ["p1", "p2"] none false []).2).isOk = true :=
  c6_empty_content_not_fatal fC6 ["p1", "p2"] none [] (fun _ _ _ => rfl)

/-- C10: in sequential mode, if page i−1's transcription returned the
empty string, then page i's call receives `previous_page_markdown =
some ""`, which the request builder treats exactly as no context at
all (the truthiness test drops the block), so page i's request is
identical to a first-page request: the context chain silently
restarts after an empty-content page. -/
theorem c10_context_restart_after_empty (f : Transcriber) (images : List String)
    (concurrency : Option Nat) (order : List Nat) (contents : List String) (i : Nat)
    (h : ((_process_images_async f images concurrency true order).2).map (fun t => t.1)
          = Except.ok contents)
    (hi : 0 < i) (hlt : i < images.length)
    (hempty : contents[i-1]? = some "") :
    ((_process_images_async f images concurrency true order).1)[i]?.map CallRecord.context
      = some (some "")
    ∧ ∀ b up,
        ((_process_images_async f images concurrency true order).1)[i]?.map
          (fun rec => buildUserContent b true rec.context up)
        = some (buildUserContent b true none up) := by
  have htr : (_process_images_async f images concurrency true order).1
      = (seqProcess f images 1 none).1 := rfl
  have hres : (_process_images_async f images concurrency true order).2
      = ((seqProcess f images 1 none).2).map aggregateResults := rfl
  rw [hres] at h
  cases hseq : (seqProcess f images 1 none).2 with
  | error e => rw [hseq] at h; cases h
  | ok rs =>
    rw [hseq] at h
    simp only [Except.map] at h
    injection h with h
    obtain ⟨hlen1, hlen2, hspec⟩ := seqProcess_ok_spec f images 1 none
      (seqProcess f images 1 none).1 rs (by rw [← hseq])
    have hcontents : contents = rs.map (fun r => r.content) := by
      rw [← h]; rfl
    have hctx := (hspec i hlt).2
    have hne0 : i ≠ 0 := Nat.pos_iff_ne_zero.mp hi
    rw [if_neg hne0] at hctx
    have hmap : (rs[i-1]?).map ModelResult.content = some "" := by
      rw [hcontents, List.getElem?_map] at hempty
      exact hempty
    rw [hmap] at hctx
    constructor
    · rw [htr]; exact hctx
    · intro b up
      rw [htr]
      cases hrec : ((seqProcess f images 1 none).1)[i]? with
      | none =>
        rw [hrec] at hctx
        simp at hctx
      | some rec =>
        rw [hrec] at hctx
        have hcrec : rec.context = some "" := by simpa using hctx
        simp [hcrec, buildUserContent_empty_ctx]

theorem c10_witness :
    ((_process_images_async fC10 ["p1", "p2"] none true []).1)[1]?.map
      (fun rec => buildUserContent "img64" true rec.context "")
    = some (buildUserContent "img64" true none "") :=
  (c10_context_restart_after_empty fC10 ["p1", "p2"] none [] ["", "B"] 1 rfl
    (by decide) (by decide) rfl).2 "img64" ""

/-! ## Claims about the top-level run -/

/-- C2 (amended): for an accuracy value outside `{low, high}` the run
fails with the configuration error and no page transcription call is
ever made — but the validation sits after the PDF-to-image conversion
in `autoscan`, so page rendering does happen first whenever the
renderer succeeds; only transcription is prevented. -/
theorem c2_invalid_accuracy_after_render (pdf_found : Bool) (rendered : Option (List String))
    (accuracy : String) (f : Transcriber) (concurrency : Option Nat) (order : List Nat)
    (polish_output : Bool) (polish : Except String ModelResult) (write_ok : Bool)
    (h1 : accuracy ≠ "low") (h2 : accuracy ≠ "high") :
    (∀ n, RunEvent.pageTranscribed n ∉
      (autoscanModel pdf_found rendered accuracy f concurrency order
        polish_output polish write_ok).1)
    ∧ (∀ images, pdf_found = true → rendered = some images → images ≠ [] →
      (autoscanModel pdf_found rendered accuracy f concurrency order
        polish_output polish write_ok).2 = Except.error RunError.invalidAccuracy) := by
  have hor : ¬ (accuracy = "low" ∨ accuracy = "high") := by
    intro hc
    rcases hc with hc | hc
    · exact h1 hc
    · exact h2 hc
  constructor
  · intro n hmem
    cases pdf_found with
    | false => simp [autoscanModel] at hmem
    | true =>
      cases rendered with
      | none => simp [autoscanModel] at hmem
      | some images =>
        cases images with
        | nil => simp [autoscanModel] at hmem
        | cons im rest =>
          rw [autoscanModel] at hmem
          simp only [Bool.not_true, Bool.false_eq_true, if_false] at hmem
          rw [if_neg (by simp), if_neg hor] at hmem
          simp [List.mem_map] at hmem
  · intro images hpdf hrend hne
    subst hpdf
    subst hrend
    cases images with
    | nil => exact absurd rfl hne
    | cons im rest =>
      rw [autoscanModel]
      simp only [Bool.not_true, Bool.false_eq_true, if_false]
      rw [if_neg (by simp), if_neg hor]

/-- C2 counterexample: with `accuracy = "medium"` and a renderer that
produced one page image, the run does raise the configuration error —
but a page has already been rendered at that point (the render event
is in the trace), contradicting the claim that the error precedes any
page rendering. -/
theorem c2_counterexample :
    (autoscanModel true (some ["page1.png"]) "medium" fC2 none [] false
      (Except.error "") true).2 = Except.error RunError.invalidAccuracy
    ∧ RunEvent.pageRendered 1 ∈
      (autoscanModel true (some ["page1.png"]) "medium" fC2 none [] false
        (Except.error "") true).1 :=
  ⟨rfl, by decide⟩

theorem c2_witness :
    (autoscanModel true (some ["page1.png"]) "medium" fC2 none [] false
      (Except.error "") true).2 = Except.error RunError.invalidAccuracy :=
  (c2_invalid_accuracy_after_render true (some ["page1.png"]) "medium" fC2 none [] false
    (Except.error "") true (by decide) (by decide)).2 ["page1.png"] rfl rfl (by decide)

/-- C9: when polishing is requested and the orchestrator succeeded, a
polish call that raises is non-fatal: the run still succeeds and the
returned document equals the pre-polish joined text with the run's
token/cost totals unchanged; a polish call that succeeds replaces the
document with the polished content and adds the polisher's tokens and
cost to the totals. -/
theorem c9_polish_degradation (accuracy : String) (images : List String) (f : Transcriber)
    (concurrency : Option Nat) (order : List Nat) (polish : Except String ModelResult)
    (tr : List CallRecord) (contents : List String) (pt ct : Nat) (cost : ℚ)
    (hacc : accuracy = "low" ∨ accuracy = "high")
    (hne : images ≠ [])
    (hrun : _process_images_async f images concurrency (accuracy == "high") order
            = (tr, Except.ok (contents, pt, ct, cost)))
    (hjoin : pyTruthy (pyStrip (_join_markdown_pages contents)) = true) :
    (∀ e, polish = Except.error e →
      (autoscanModel true (some images) accuracy f concurrency order true polish true).2
        = Except.ok ⟨_join_markdown_pages contents, pt, ct, cost, accuracy⟩)
    ∧ (∀ r, polish = Except.ok r →
      (autoscanModel true (some images) accuracy f concurrency order true polish true).2
        = Except.ok ⟨r.content, pt + r.prompt_tokens, ct + r.completion_tokens,
                     cost + r.cost, accuracy⟩) := by
  cases images with
  | nil => exact absurd rfl hne
  | cons im rest =>
    have hbase : (autoscanModel true (some (im :: rest)) accuracy f concurrency order
          true polish true).2
        = match polish with
          | Except.ok r =>
            Except.ok ⟨r.content, pt + r.prompt_tokens, ct + r.completion_tokens,
                       cost + r.cost, accuracy⟩
          | Except.error _ =>
            Except.ok ⟨_join_markdown_pages contents, pt, ct, cost, accuracy⟩ := by
      rw [autoscanModel]
      simp only [Bool.not_true, Bool.false_eq_true, if_false]
      rw [if_neg (by simp), if_pos hacc]
      simp only [hrun, hjoin, Bool.and_true, if_true]
      cases polish with
      | ok r => rfl
      | error e => rfl
    constructor
    · intro e hpol
      rw [hbase, hpol]
    · intro r hpol
      rw [hbase, hpol]

theorem c9_witness :
    (autoscanModel true (some ["pg1", "pg2"]) "high" fC9 none [] true
      (Except.error "boom") true).2
      = Except.ok ⟨_join_markdown_pages ["A", "B"], 2, 2, c9cost, "high"⟩ :=
  (c9_polish_degradation "high" ["pg1", "pg2"] fC9 none [] (Except.error "boom")
    [⟨"pg1", 1, none⟩, ⟨"pg2", 2, some "A"⟩] ["A", "B"] 2 2 c9cost
    (Or.inr rfl) (by decide) (by rfl) (by decide)).1 "boom" rfl

/-- C8 witness: a page that cleans to empty (a whitespace-only page)
is dropped from the join without contributing a separator. -/
theorem c8_witness :
    _join_markdown_pages (["x"] ++ " " :: ["y"]) = _join_markdown_pages (["x"] ++ ["y"]) :=
  c8_join_cleanup.2.2.2 ["x"] ["y"] " " (by decide)
